import Mathlib

/-!
Verification development for the OpenAI categorization/labeling tutorial notebook.

The notebook's reimplementable core consists of:
* a single-message completion helper (`get_completion_from_messages`);
* a batched completion helper (`get_completion_from_messages_batch`) decorated with
  tenacity's retry combinator `@retry(wait=wait_random_exponential(min=30, max=60),
  stop=stop_after_attempt(6))`;
* a bracket-repair loop over the returned response strings;
* a distinct-topic extraction step (filter single-word labels, lower-case, dedupe).

The definitions below embed those pieces.  The external completion service is an
oracle parameter; machine-level details (HTTP, pandas frames) are abstracted to the
row lists and message records the notebook actually manipulates.
-/

namespace OpenAITutorial

/-- Chat message record: a role/content pair, as built by the notebook. -/
structure Message where
  role : String
  content : String
deriving DecidableEq

/-- One completion choice of a service response. -/
structure Choice where
  message : Message
deriving DecidableEq

/-- Service response: a list of completion choices; the notebook reads
`response.choices[0].message["content"]`. -/
structure Response where
  choices : List Choice
deriving DecidableEq

/-- Outbound request assembled for `openai.ChatCompletion.create`. -/
structure Request where
  model : String
  messages : List Message
  temperature : Nat
  maxTokens : Nat
deriving DecidableEq

/-- Convenience constructor for a response with a single assistant choice. -/
def respOf (s : String) : Response :=
  ⟨[⟨⟨"assistant", s⟩⟩]⟩

/-- Embeds the notebook's `get_completion_from_messages` helper: it builds a request
with defaults model gpt-3.5-turbo, temperature 0, max_tokens 150, issues it to the
service, and returns `response.choices[0].message["content"]`; the empty-choices
IndexError is modelled as `none`. -/
def get_completion_from_messages (svc : Request → Response) (messages : List Message)
    (model : String := "gpt-3.5-turbo") (temperature : Nat := 0)
    (maxTokens : Nat := 150) : Option String :=
  ((svc (Request.mk model messages temperature maxTokens)).choices.head?).map
    fun ch => ch.message.content

/-- The delimiter chosen in the notebook. -/
def delimiter : String := "####"

/-- Embeds the inner loop of the batch helper: `user_message` starts empty and each
row appends `row + delimiter` (note the delimiter therefore also trails the final
row). -/
def mkUserMessage (batch : List String) : String :=
  batch.foldl (fun acc row => acc ++ row ++ delimiter) ""

/-- The two-message request body built for one batch: the system instruction followed
by the joined user message. -/
def mkMessages (system_message : String) (batch : List String) : List Message :=
  [⟨"system", system_message⟩, ⟨"user", mkUserMessage batch⟩]

/-- Offsets produced by `range(0, n, B)` for a positive step `B`:
`0, B, 2B, …`, of length `ceil(n / B) = (n + B - 1) / B`. -/
def rangeStep (n B : Nat) : List Nat :=
  (List.range ((n + B - 1) / B)).map (· * B)

/-- The batch slices `df.iloc[i : i + B]` taken at each offset of `range(0, n, B)`. -/
def batchSlices (rows : List String) (B : Nat) : List (List String) :=
  (rangeStep rows.length B).map fun i => (rows.drop i).take B

def mkRequest (model : String) (msgs : List Message) (temperature maxTokens : Nat) :
    Request :=
  ⟨model, msgs, temperature, maxTokens⟩

/-- Failure kinds an attempt of the batch body can raise. -/
inductive Err where
  | rateLimit : Err
  | authError : Err
  | valueError : Err
  | indexError : Err
deriving DecidableEq

/-- The deterministic per-invocation plan of the batch helper body.  Python's
`range(0, len(df), batch_size)` raises ValueError when the step is zero (before any
outbound call); a negative step yields an empty range, so no call is made and the
result is the empty response list; a positive step yields one request per batch
slice, built with the given model/temperature/max_tokens parameters. -/
def batchRequests (rows : List String) (system_message : String) (model : String)
    (temperature maxTokens : Nat) (batch_size : Int) : Except Err (List Request) :=
  if batch_size = 0 then .error .valueError
  else if batch_size < 0 then .ok []
  else .ok ((batchSlices rows batch_size.toNat).map fun b =>
    mkRequest model (mkMessages system_message b) temperature maxTokens)

/-- Oracle for the external completion service: the outcome of the call issued on a
given attempt number for a given batch index (either a raised error or a response). -/
abbrev Svc := Nat → Nat → Except Err Response

/-- One pass of the batch loop body: issue the calls for the requests in order,
starting at batch index `j`; record every issued call as an index/request pair; the
first raised error aborts the loop (later batches are not requested on this attempt).
An empty `choices` list in a response raises IndexError at
`response.choices[0]`. -/
def runCalls (svc : Svc) (a : Nat) :
    Nat → List Request → List (Nat × Request) × Except Err (List String)
  | _, [] => ([], Except.ok [])
  | j, r :: rs =>
    match svc a j with
    | .error e => ([(j, r)], .error e)
    | .ok resp =>
      match resp.choices.head? with
      | none => ([(j, r)], .error .indexError)
      | some ch =>
        match runCalls svc a (j + 1) rs with
        | (cs, .ok out) => ((j, r) :: cs, .ok (ch.message.content :: out))
        | (cs, .error e) => ((j, r) :: cs, .error e)

/-- Terminal failure of the decorated function: tenacity's default reraise=False
wraps the last attempt's exception in a RetryError once the stop condition holds. -/
structure RetryError where
  lastErr : Err
deriving DecidableEq

instance {ε α : Type} [DecidableEq ε] [DecidableEq α] : DecidableEq (Except ε α) :=
  fun x y =>
    match x, y with
    | .ok a, .ok b =>
      decidable_of_iff (a = b) ⟨fun h => by rw [h], fun h => by injection h⟩
    | .error a, .error b =>
      decidable_of_iff (a = b) ⟨fun h => by rw [h], fun h => by injection h⟩
    | .ok _, .error _ => isFalse (fun h => by injection h)
    | .error _, .ok _ => isFalse (fun h => by injection h)

/-- Observable outcome of one invocation of the decorated batch helper: the trace of
issued outbound calls (batch index and request, across all attempts in order), the
number of backoff delays slept, and the final result or terminal error. -/
structure RunResult where
  calls : List (Nat × Request)
  delays : Nat
  outcome : Except RetryError (List String)
deriving DecidableEq

/-- One attempt of the decorated function body: a ValueError raised while building the
range (zero step) aborts before any call; otherwise the batch loop runs. -/
def attemptOnce (svc : Svc) (plan : Except Err (List Request)) (a : Nat) :
    List (Nat × Request) × Except Err (List String) :=
  match plan with
  | .error e => ([], .error e)
  | .ok reqs => runCalls svc a 0 reqs

/-- Embeds tenacity's retry loop as configured in the notebook:
stop_after_attempt(6) allows 6 attempts in total; by default every raised exception
is retried (there is no exception-type filter), a backoff delay is slept between
attempts, and once the 6th attempt fails the last exception propagates wrapped in a
RetryError.  `rem` is the number of retries still allowed after the current attempt
(initially 5); `a` is the 1-based attempt number. -/
def tenacityGo (svc : Svc) (plan : Except Err (List Request)) :
    Nat → Nat → List (Nat × Request) → Nat → RunResult
  | 0, a, acc, d =>
    match attemptOnce svc plan a with
    | (cs, .ok out) => ⟨acc ++ cs, d, .ok out⟩
    | (cs, .error e) => ⟨acc ++ cs, d, .error ⟨e⟩⟩
  | rem + 1, a, acc, d =>
    match attemptOnce svc plan a with
    | (cs, .ok out) => ⟨acc ++ cs, d, .ok out⟩
    | (cs, .error _) => tenacityGo svc plan rem (a + 1) (acc ++ cs) (d + 1)

/-- Embeds the notebook's `get_completion_from_messages_batch` together with its
`@retry(wait=wait_random_exponential(min=30, max=60), stop=stop_after_attempt(6))`
decorator: the whole batch loop is the retried unit. -/
def get_completion_from_messages_batch (svc : Svc) (rows : List String)
    (system_message : String) (batch_size : Int) (model : String := "gpt-3.5-turbo")
    (temperature : Nat := 0) (maxTokens : Nat := 300) : RunResult :=
  tenacityGo svc
    (batchRequests rows system_message model temperature maxTokens batch_size)
    5 1 [] 0

/-- Window upper bound of tenacity's wait_random_exponential(min=30, max=60) for a
given 1-based attempt number: `max(30, min(2 ^ (attempt - 1), 60))`. -/
def waitWindowHigh (attempt : Nat) : Nat :=
  max 30 (min (2 ^ (attempt - 1)) 60)

/-- The delay actually slept: wait_random_exponential draws uniformly from
`[0, high]`; the draw is modelled by a parameter `u` in `[0, 1]` scaling the window
bound. -/
def waitDelay (attempt : Nat) (u : ℚ) : ℚ :=
  u * (waitWindowHigh attempt : ℚ)

/-- Accumulator pass for whitespace splitting: `cur` is the current word being read
in reverse; whitespace flushes a non-empty current word, so empty pieces are
discarded and no leading or trailing empty words appear. -/
def wordsAux : List Char → List Char → List (List Char)
  | [], cur => if cur = [] then [] else [cur.reverse]
  | c :: rest, cur =>
    if c.isWhitespace then
      if cur = [] then wordsAux rest [] else cur.reverse :: wordsAux rest []
    else wordsAux rest (c :: cur)

/-- Embeds Python's `str.split()` with no arguments: split on runs of whitespace,
with no empty pieces. -/
def pySplit (s : String) : List String :=
  (wordsAux s.data []).map String.mk

/-- Embeds Python's `str.lower()` (character-wise lowering; the notebook's labels
are ASCII, where the two agree). -/
def pyLower (s : String) : String :=
  ⟨s.data.map Char.toLower⟩

/-- Embeds the notebook's comprehension
`[string.lower() for string in all_topics if len(string.split()) == 1]`. -/
def all_topics (l : List String) : List String :=
  (l.filter fun s => (pySplit s).length == 1).map pyLower

/-- Embeds `unique_topics = list(set(all_topics))`: duplicates collapsed (the order
of a Python set is arbitrary; `dedup` is one determinization, and the theorems below
only use its membership). -/
def unique_topics (l : List String) : List String :=
  (all_topics l).dedup

/-- Embeds the bracket-repair step for one response string:
`if r[len(r)-1] != "]": r += "]"`.  Indexing the last character of an empty string
raises IndexError, modelled as `none`. -/
def repairOne (s : String) : Option String :=
  match s.data.getLast? with
  | none => none
  | some c => some (if c ≠ ']' then s ++ "]" else s)

/-- Embeds the bracket-repair loop over the response list; the first IndexError
aborts it. -/
def bracketRepair : List String → Option (List String)
  | [] => some []
  | r :: rs =>
    match repairOne r with
    | none => none
    | some t =>
      match bracketRepair rs with
      | none => none
      | some ts => some (t :: ts)

/-- Spec-side definition, following the specification's words for comparison with
`mkUserMessage`: the batch's row texts joined by the delimiter, with delimiter text
appearing only between consecutive rows and nothing extra before the first row or
after the last. -/
def joinedByDelim (d : String) : List String → String
  | [] => ""
  | [r] => r
  | r :: rs => r ++ d ++ joinedByDelim d rs

/-! Helper lemmas about the batch partition. -/

lemma div_pred_self_eq_zero (B : Nat) : (B - 1) / B = 0 := by
  cases B with
  | zero => rfl
  | succ b => exact Nat.div_eq_of_lt (by omega)

lemma batchSlices_nil (B : Nat) : batchSlices [] B = [] := by
  simp [batchSlices, rangeStep, div_pred_self_eq_zero]

lemma batchSlices_eq (rows : List String) (B : Nat) :
    batchSlices rows B
      = (List.range ((rows.length + B - 1) / B)).map
          (fun k => (rows.drop (k * B)).take B) := by
  simp [batchSlices, rangeStep, List.map_map, Function.comp]

lemma ceil_succ (n B : Nat) (hB : 1 ≤ B) (hn : 1 ≤ n) :
    (n + B - 1) / B = ((n - B) + B - 1) / B + 1 := by
  have h1 : n + B - 1 = (n - 1) + B := by omega
  rw [h1, Nat.add_div_right _ (by omega : 0 < B)]
  rcases le_or_lt n B with h | h
  · have h2 : n - B = 0 := by omega
    have h3 : (n - 1) / B = 0 := Nat.div_eq_of_lt (by omega)
    have h4 : (0 + B - 1) / B = 0 := Nat.div_eq_of_lt (by omega)
    rw [h2, h3, h4]
  · have h2 : (n - B) + B - 1 = n - 1 := by omega
    rw [h2]

lemma batchSlices_cons (rows : List String) (B : Nat) (hB : 1 ≤ B)
    (hne : rows ≠ []) :
    batchSlices rows B = rows.take B :: batchSlices (rows.drop B) B := by
  have hn : 1 ≤ rows.length := List.length_pos.mpr hne
  rw [batchSlices_eq, batchSlices_eq, List.length_drop,
    ceil_succ rows.length B hB hn, List.range_succ_eq_map, List.map_cons]
  congr 1
  · simp
  · rw [List.map_map]
    refine List.map_congr_left fun j hj => ?_
    simp only [Function.comp_apply]
    rw [List.drop_drop]
    congr 2
    rw [Nat.succ_mul, Nat.mul_comm j B]
    exact Nat.add_comm _ _

lemma flatten_batchSlices_aux (B : Nat) (hB : 1 ≤ B) :
    ∀ (n : Nat) (rows : List String), rows.length ≤ n →
      (batchSlices rows B).flatten = rows := by
  intro n
  induction n with
  | zero =>
    intro rows h
    have hnil : rows = [] := List.length_eq_zero.mp (by omega)
    subst hnil
    simp [batchSlices_nil]
  | succ n ih =>
    intro rows h
    rcases eq_or_ne rows [] with hne | hne
    · subst hne; simp [batchSlices_nil]
    · rw [batchSlices_cons rows B hB hne, List.flatten_cons,
        ih (rows.drop B) (by rw [List.length_drop]; omega),
        List.take_append_drop]

lemma flatten_batchSlices (rows : List String) (B : Nat) (hB : 1 ≤ B) :
    (batchSlices rows B).flatten = rows :=
  flatten_batchSlices_aux B hB rows.length rows le_rfl

lemma length_batchSlices (rows : List String) (B : Nat) :
    (batchSlices rows B).length = (rows.length + B - 1) / B := by
  simp [batchSlices, rangeStep]

/-! Helper lemmas about the batch-loop body and the retry wrapper. -/

lemma runCalls_ok (svc : Svc) (a : Nat) (g : Nat → String) :
    ∀ (rs : List Request) (j : Nat),
      (∀ k, k < rs.length → svc a (j + k) = .ok (respOf (g (j + k)))) →
      runCalls svc a j rs
        = ((List.range' j rs.length).zip rs,
           .ok ((List.range' j rs.length).map g)) := by
  intro rs
  induction rs with
  | nil => intro j _; rfl
  | cons r rs ih =>
    intro j h
    have h0 : svc a j = .ok (respOf (g j)) := by
      have := h 0 (by simp)
      simpa using this
    have hrec := ih (j + 1) (fun k hk => by
      have h' := h (k + 1) (by simpa using Nat.succ_lt_succ hk)
      rwa [show j + (k + 1) = (j + 1) + k by omega] at h')
    simp only [runCalls, h0, hrec]
    rfl

lemma runCalls_fail (svc : Svc) (a : Nat) (g : Nat → String) (e : Err) :
    ∀ (m : Nat) (rs : List Request) (j : Nat),
      m < rs.length →
      (∀ k, k < m → svc a (j + k) = .ok (respOf (g (j + k)))) →
      svc a (j + m) = .error e →
      runCalls svc a j rs
        = ((List.range' j (m + 1)).zip (rs.take (m + 1)), .error e) := by
  intro m
  induction m with
  | zero =>
    intro rs j hm hok hfail
    obtain ⟨r, rs', rfl⟩ : ∃ r rs', rs = r :: rs' := by
      cases rs with
      | nil => simp at hm
      | cons r rs' => exact ⟨r, rs', rfl⟩
    have h0 : svc a j = .error e := by simpa using hfail
    simp only [runCalls, h0]
    rfl
  | succ m ih =>
    intro rs j hm hok hfail
    obtain ⟨r, rs', rfl⟩ : ∃ r rs', rs = r :: rs' := by
      cases rs with
      | nil => simp at hm
      | cons r rs' => exact ⟨r, rs', rfl⟩
    have h0 : svc a j = .ok (respOf (g j)) := by
      have := hok 0 (Nat.succ_pos m)
      simpa using this
    have hrec := ih rs' (j + 1) (by simpa using hm)
      (fun k hk => by
        have h' := hok (k + 1) (by omega)
        rwa [show j + (k + 1) = (j + 1) + k by omega] at h')
      (by rwa [show j + (m + 1) = (j + 1) + m by omega] at hfail)
    simp only [runCalls, h0, hrec]
    rfl

lemma tenacityGo_ok (svc : Svc) (plan : Except Err (List Request))
    {a acc d : _} {cs : List (Nat × Request)} {out : List String}
    (h : attemptOnce svc plan a = (cs, .ok out)) :
    ∀ rem, tenacityGo svc plan rem a acc d = ⟨acc ++ cs, d, .ok out⟩ := by
  intro rem
  cases rem with
  | zero => simp [tenacityGo, h]
  | succ rem => simp [tenacityGo, h]

lemma flatten_replicate_nil {α : Type} :
    ∀ n, (List.replicate n ([] : List α)).flatten = [] := by
  intro n
  induction n with
  | zero => rfl
  | succ n ih => simp [List.replicate_succ, ih]

lemma flatten_replicate_singleton {α : Type} (x : α) :
    ∀ n, (List.replicate n [x]).flatten = List.replicate n x := by
  intro n
  induction n with
  | zero => rfl
  | succ n ih => simp [List.replicate_succ, ih]

lemma tenacityGo_const_fail (svc : Svc) (plan : Except Err (List Request))
    (cs : List (Nat × Request)) (e : Err)
    (h : ∀ a, attemptOnce svc plan a = (cs, .error e)) :
    ∀ rem a acc d,
      tenacityGo svc plan rem a acc d
        = ⟨acc ++ (List.replicate (rem + 1) cs).flatten, d + rem, .error ⟨e⟩⟩ := by
  intro rem
  induction rem with
  | zero =>
    intro a acc d
    simp [tenacityGo, h a]
  | succ rem ih =>
    intro a acc d
    rw [show tenacityGo svc plan (rem + 1) a acc d
        = tenacityGo svc plan rem (a + 1) (acc ++ cs) (d + 1) by
      simp [tenacityGo, h a]]
    rw [ih (a + 1) (acc ++ cs) (d + 1)]
    simp [List.replicate_succ, List.append_assoc]
    omega

lemma tenacityGo_fail_step (svc : Svc) (plan : Except Err (List Request))
    {a d : Nat} {acc cs : List (Nat × Request)} {e : Err}
    (h : attemptOnce svc plan a = (cs, .error e)) (rem : Nat) :
    tenacityGo svc plan (rem + 1) a acc d
      = tenacityGo svc plan rem (a + 1) (acc ++ cs) (d + 1) := by
  simp [tenacityGo, h]

lemma mem_runCalls_snd (svc : Svc) (a : Nat) :
    ∀ (rs : List Request) (j : Nat) (p : Nat × Request),
      p ∈ (runCalls svc a j rs).1 → p.2 ∈ rs := by
  intro rs
  induction rs with
  | nil => intro j p hp; simp [runCalls] at hp
  | cons r rs ih =>
    intro j p hp
    simp only [runCalls] at hp
    split at hp
    · simp at hp
      simp [hp]
    · split at hp
      · simp at hp
        simp [hp]
      · split at hp
        · rename_i heq
          simp at hp
          rcases hp with hp | hp
          · simp [hp]
          · have h2 : p.2 ∈ rs := by
              apply ih (j + 1) p
              rw [heq]
              exact hp
            exact List.mem_cons_of_mem _ h2
        · rename_i heq
          simp at hp
          rcases hp with hp | hp
          · simp [hp]
          · have h2 : p.2 ∈ rs := by
              apply ih (j + 1) p
              rw [heq]
              exact hp
            exact List.mem_cons_of_mem _ h2

lemma mem_attemptOnce_snd (svc : Svc) (plan : Except Err (List Request)) (a : Nat)
    (p : Nat × Request) (hp : p ∈ (attemptOnce svc plan a).1) :
    ∃ reqs, plan = .ok reqs ∧ p.2 ∈ reqs := by
  cases plan with
  | error e => simp [attemptOnce] at hp
  | ok reqs => exact ⟨reqs, rfl, mem_runCalls_snd svc a reqs 0 p hp⟩

lemma mem_tenacityGo_calls (svc : Svc) (plan : Except Err (List Request)) :
    ∀ (rem a : Nat) (acc : List (Nat × Request)) (d : Nat) (p : Nat × Request),
      p ∈ (tenacityGo svc plan rem a acc d).calls →
        p ∈ acc ∨ ∃ reqs, plan = .ok reqs ∧ p.2 ∈ reqs := by
  intro rem
  induction rem with
  | zero =>
    intro a acc d p hp
    simp only [tenacityGo] at hp
    split at hp <;>
      (rename_i heq
       rcases List.mem_append.mp hp with h | h
       · exact Or.inl h
       · exact Or.inr (mem_attemptOnce_snd svc plan a p (by rw [heq]; exact h)))
  | succ rem ih =>
    intro a acc d p hp
    simp only [tenacityGo] at hp
    split at hp
    · rename_i heq
      rcases List.mem_append.mp hp with h | h
      · exact Or.inl h
      · exact Or.inr (mem_attemptOnce_snd svc plan a p (by rw [heq]; exact h))
    · rename_i heq
      rcases ih (a + 1) _ (d + 1) p hp with h | h
      · rcases List.mem_append.mp h with h2 | h2
        · exact Or.inl h2
        · exact Or.inr (mem_attemptOnce_snd svc plan a p (by rw [heq]; exact h2))
      · exact Or.inr h

lemma batchRequests_pos (rows : List String) (sys model : String)
    (temp maxTok : Nat) (B : Int) (hB : 1 ≤ B) :
    batchRequests rows sys model temp maxTok B
      = .ok ((batchSlices rows B.toNat).map fun b =>
          mkRequest model (mkMessages sys b) temp maxTok) := by
  unfold batchRequests
  rw [if_neg (by omega), if_neg (by omega)]

lemma count_range (j : Nat) : ∀ n, (List.range n).count j = if j < n then 1 else 0 := by
  intro n
  induction n with
  | zero => simp
  | succ n ih =>
    rw [List.range_succ, List.count_append, ih]
    have hsing : List.count j [n] = if j = n then 1 else 0 := by
      by_cases h : j = n
      · subst h; simp [List.count_cons]
      · simp [List.count_cons, h, Ne.symm h]
    rw [hsing]
    by_cases h1 : j < n
    · simp [h1, Nat.lt_succ_of_lt h1, Nat.ne_of_lt h1]
    · by_cases h2 : j = n
      · subst h2
        simp [h1, Nat.lt_succ_self]
      · have h3 : ¬ j < n + 1 := by omega
        simp [h1, h2, h3]

/-! Helper lemmas about the joined user message and bracket repair. -/

lemma foldl_userMessage_shift :
    ∀ (b : List String) (acc : String),
      b.foldl (fun a r => a ++ r ++ delimiter) acc
        = acc ++ b.foldl (fun a r => a ++ r ++ delimiter) "" := by
  intro b
  induction b with
  | nil =>
    intro acc
    simp [List.foldl, String.append_empty]
  | cons r b ih =>
    intro acc
    simp only [List.foldl]
    rw [ih (acc ++ r ++ delimiter), ih ("" ++ r ++ delimiter), String.empty_append]
    simp [String.append_assoc]

lemma mkUserMessage_eq_joined :
    ∀ b : List String, b ≠ [] →
      mkUserMessage b = joinedByDelim delimiter b ++ delimiter := by
  intro b
  induction b with
  | nil => intro h; exact absurd rfl h
  | cons r b ih =>
    intro _
    cases b with
    | nil =>
      show mkUserMessage [r] = r ++ delimiter
      simp [mkUserMessage, List.foldl, String.empty_append]
    | cons r2 b2 =>
      have h1 : mkUserMessage (r :: r2 :: b2)
          = ("" ++ r ++ delimiter) ++ mkUserMessage (r2 :: b2) :=
        foldl_userMessage_shift (r2 :: b2) ("" ++ r ++ delimiter)
      rw [h1, ih (by simp), String.empty_append]
      show (r ++ delimiter) ++ (joinedByDelim delimiter (r2 :: b2) ++ delimiter)
        = (r ++ delimiter ++ joinedByDelim delimiter (r2 :: b2)) ++ delimiter
      simp [String.append_assoc]

lemma string_data_ne_nil {s : String} (h : s ≠ "") : s.data ≠ [] :=
  fun hd => h (congrArg String.mk hd)

lemma repairOne_ends {s t : String} (h : repairOne s = some t) :
    t.data.getLast? = some ']' := by
  unfold repairOne at h
  cases hc : s.data.getLast? with
  | none => rw [hc] at h; exact absurd h (by simp)
  | some c =>
    rw [hc] at h
    by_cases hcb : c = ']'
    · subst hcb
      simp at h
      subst h
      exact hc
    · have ht : t = s ++ "]" := by
        simp [hcb] at h
        exact h.symm
      subst ht
      rw [String.data_append]
      exact List.getLast?_concat _

lemma repairOne_fixed {t : String} (h : t.data.getLast? = some ']') :
    repairOne t = some t := by
  unfold repairOne
  rw [h]
  simp

lemma repairOne_isSome {s : String} (h : s ≠ "") : ∃ t, repairOne s = some t := by
  unfold repairOne
  cases hc : s.data.getLast? with
  | none => exact absurd (List.getLast?_eq_none_iff.mp hc) (string_data_ne_nil h)
  | some c => exact ⟨_, rfl⟩

/-! Claim C5. -/

/-- Claim C5, counterexample: the claim states the user message equals the batch's
rows joined by the delimiter with nothing extra after the last row; for the
single-row batch consisting of the text a, the code produces the row followed by a
trailing delimiter, which differs from the claimed join. -/
theorem C5_counterexample :
    mkUserMessage ["a"] = "a" ++ delimiter
      ∧ mkUserMessage ["a"] ≠ joinedByDelim delimiter ["a"] := by
  constructor
  · rfl
  · decide

/-- Claim C5 as amended: for every non-empty batch, the request body consists of
exactly two messages, the system instruction first, then a user message equal to the
batch's rows joined by the delimiter with one additional trailing delimiter after
the final row. -/
theorem C5_two_messages_trailing_delimiter (sys : String) (b : List String)
    (hne : b ≠ []) :
    mkMessages sys b
      = [⟨"system", sys⟩,
         ⟨"user", joinedByDelim delimiter b ++ delimiter⟩] := by
  unfold mkMessages
  rw [mkUserMessage_eq_joined b hne]

/-- Claim C5 witness: the amended theorem applied to a concrete system message and
batch. -/
theorem C5_two_messages_trailing_delimiter_witness :
    mkMessages "inst" ["a", "b"]
      = [⟨"system", "inst"⟩,
         ⟨"user", joinedByDelim delimiter ["a", "b"] ++ delimiter⟩] :=
  C5_two_messages_trailing_delimiter "inst" ["a", "b"] (by decide)

/-! Claim C6. -/

/-- Claim C6, counterexample: the claim states every drawn retry delay lies between
30 and 60 inclusive; the wait policy draws uniformly from zero up to the window
bound, so the draw at the low end of the window gives a delay of 0, below 30. -/
theorem C6_counterexample :
    waitDelay 1 0 = 0 ∧ ¬ (30 ≤ waitDelay 1 0) := by
  have h : waitDelay 1 0 = 0 := by simp [waitDelay]
  exact ⟨h, by rw [h]; norm_num⟩

/-- Claim C6 as amended: every drawn delay lies between 0 and the window bound; the
window bound (not the delay) lies between 30 and 60 inclusive, is monotone in the
attempt number, and reaches the 60-unit ceiling as attempts accumulate. -/
theorem C6_delay_window_bounds (n : Nat) (u : ℚ) (h0 : 0 ≤ u) (h1 : u ≤ 1) :
    0 ≤ waitDelay n u
      ∧ waitDelay n u ≤ (waitWindowHigh n : ℚ)
      ∧ 30 ≤ waitWindowHigh n
      ∧ waitWindowHigh n ≤ 60
      ∧ (∀ m, n ≤ m → waitWindowHigh n ≤ waitWindowHigh m)
      ∧ waitWindowHigh 7 = 60 := by
  refine ⟨?_, ?_, le_max_left _ _, max_le (by norm_num) (min_le_right _ _), ?_, by decide⟩
  · exact mul_nonneg h0 (Nat.cast_nonneg _)
  · calc waitDelay n u = u * (waitWindowHigh n : ℚ) := rfl
      _ ≤ 1 * (waitWindowHigh n : ℚ) :=
        mul_le_mul_of_nonneg_right h1 (Nat.cast_nonneg _)
      _ = (waitWindowHigh n : ℚ) := one_mul _
  · intro m hm
    exact max_le_max le_rfl
      (min_le_min (Nat.pow_le_pow_right (by norm_num) (by omega)) le_rfl)

/-- Claim C6 witness: the amended theorem applied at attempt 1 with the draw one
half. -/
theorem C6_delay_window_bounds_witness :
    0 ≤ waitDelay 1 (1 / 2)
      ∧ waitDelay 1 (1 / 2) ≤ (waitWindowHigh 1 : ℚ)
      ∧ 30 ≤ waitWindowHigh 1
      ∧ waitWindowHigh 1 ≤ 60
      ∧ (∀ m, 1 ≤ m → waitWindowHigh 1 ≤ waitWindowHigh m)
      ∧ waitWindowHigh 7 = 60 :=
  C6_delay_window_bounds 1 (1 / 2) (by norm_num) (by norm_num)

/-! Claim C8. -/

/-- Claim C8: applied to the notebook's example list, distinct-label extraction
yields exactly the set containing tech and space; in general a string is among the
unique topics exactly when it is the lower-casing of some single-word label of the
input, so the resulting set is independent of input order and multiplicity. -/
theorem C8_unique_topics_extraction :
    (unique_topics ["Tech", "tech", "Space Policy", "space"]).toFinset
        = ({"tech", "space"} : Finset String)
      ∧ ∀ (l : List String) (s : String),
          s ∈ unique_topics l
            ↔ ∃ t, t ∈ l ∧ (pySplit t).length = 1 ∧ pyLower t = s := by
  constructor
  · decide
  · intro l s
    simp only [unique_topics, List.mem_dedup, all_topics, List.mem_map,
      List.mem_filter, beq_iff_eq]
    constructor
    · rintro ⟨t, ⟨ht, hlen⟩, hlow⟩
      exact ⟨t, ht, hlen, hlow⟩
    · rintro ⟨t, ht, hlen, hlow⟩
      exact ⟨t, ⟨ht, hlen⟩, hlow⟩

/-! Claim C10. -/

/-- Claim C10: on a list of non-empty strings the bracket-repair step succeeds,
afterwards every element ends with a closing bracket, and a second application
returns the same list (idempotence); a list containing an empty string makes the
step fail instead of appending. -/
theorem C10_bracket_repair_idempotent :
    (∀ rs : List String, (∀ r ∈ rs, r ≠ "") →
        ∃ rs', bracketRepair rs = some rs'
          ∧ (∀ t ∈ rs', t.data.getLast? = some ']')
          ∧ bracketRepair rs' = some rs')
      ∧ ∀ rs₁ rs₂ : List String, bracketRepair (rs₁ ++ "" :: rs₂) = none := by
  constructor
  · intro rs
    induction rs with
    | nil => intro _; exact ⟨[], rfl, by simp, rfl⟩
    | cons r rs ih =>
      intro h
      obtain ⟨rs', h1, h2, h3⟩ := ih fun x hx => h x (List.mem_cons_of_mem _ hx)
      obtain ⟨t, htt⟩ := repairOne_isSome (h r (List.mem_cons_self _ _))
      have ht : t.data.getLast? = some ']' := repairOne_ends htt
      refine ⟨t :: rs', ?_, ?_, ?_⟩
      · simp [bracketRepair, htt, h1]
      · intro x hx
        rcases List.mem_cons.mp hx with rfl | hx
        · exact ht
        · exact h2 x hx
      · simp [bracketRepair, repairOne_fixed ht, h3]
  · intro rs₁ rs₂
    induction rs₁ with
    | nil =>
      have h0 : repairOne "" = none := rfl
      simp [bracketRepair, h0]
    | cons r rs ih =>
      rw [List.cons_append]
      cases hr : repairOne r <;> simp [bracketRepair, hr, ih]

/-- Claim C10 witness: the theorem applied to a concrete list of non-empty strings
and to a concrete list containing the empty string. -/
theorem C10_bracket_repair_idempotent_witness :
    (∃ rs', bracketRepair ["ab", "c]"] = some rs'
        ∧ (∀ t ∈ rs', t.data.getLast? = some ']')
        ∧ bracketRepair rs' = some rs')
      ∧ bracketRepair (["x"] ++ "" :: ["y"]) = none :=
  ⟨C10_bracket_repair_idempotent.1 ["ab", "c]"] (by decide),
   C10_bracket_repair_idempotent.2 ["x"] ["y"]⟩

/-! Claim C2. -/

/-- Claim C2: for every row sequence and every batch size B at least 1, under a
service that answers every call on the first attempt, the dispatcher issues exactly
ceil(N/B) outbound calls, one per batch, in source order; the concatenation of the
batch slices is the original row sequence with no row dropped or duplicated; and for
an empty row sequence zero calls are issued and the result is the empty response
list. -/
theorem C2_dispatcher_partitions_rows (svc : Svc) (rows : List String)
    (sys : String) (B : Int) (g : Nat → String) (hB : 1 ≤ B)
    (hsvc : ∀ j, svc 1 j = .ok (respOf (g j))) :
    (batchSlices rows B.toNat).length = (rows.length + B.toNat - 1) / B.toNat
      ∧ (batchSlices rows B.toNat).flatten = rows
      ∧ (get_completion_from_messages_batch svc rows sys B).calls.map Prod.fst
          = List.range (batchSlices rows B.toNat).length
      ∧ (get_completion_from_messages_batch svc rows sys B).outcome
          = .ok ((List.range (batchSlices rows B.toNat).length).map g)
      ∧ (get_completion_from_messages_batch svc rows sys B).delays = 0
      ∧ (rows = [] →
          (get_completion_from_messages_batch svc rows sys B).calls = []
            ∧ (get_completion_from_messages_batch svc rows sys B).outcome
                = .ok []) := by
  have hBt : 1 ≤ B.toNat := by omega
  have hplan : batchRequests rows sys "gpt-3.5-turbo" 0 300 B
      = .ok ((batchSlices rows B.toNat).map fun b =>
          mkRequest "gpt-3.5-turbo" (mkMessages sys b) 0 300) := by
    unfold batchRequests
    rw [if_neg (by omega), if_neg (by omega)]
  have hlen : ((batchSlices rows B.toNat).map fun b =>
      mkRequest "gpt-3.5-turbo" (mkMessages sys b) 0 300).length
      = (batchSlices rows B.toNat).length := List.length_map _ _
  have hcall := runCalls_ok svc 1 g
    ((batchSlices rows B.toNat).map fun b =>
      mkRequest "gpt-3.5-turbo" (mkMessages sys b) 0 300) 0
    (fun k _ => by simpa using hsvc k)
  have hatt : attemptOnce svc
      (.ok ((batchSlices rows B.toNat).map fun b =>
        mkRequest "gpt-3.5-turbo" (mkMessages sys b) 0 300)) 1
      = ((List.range' 0 (batchSlices rows B.toNat).length).zip
          ((batchSlices rows B.toNat).map fun b =>
            mkRequest "gpt-3.5-turbo" (mkMessages sys b) 0 300),
         .ok ((List.range' 0 (batchSlices rows B.toNat).length).map g)) := by
    show runCalls svc 1 0 ((batchSlices rows B.toNat).map fun b =>
      mkRequest "gpt-3.5-turbo" (mkMessages sys b) 0 300) = _
    rw [hcall, hlen]
  have hrun : get_completion_from_messages_batch svc rows sys B
      = ⟨[] ++ (List.range' 0 (batchSlices rows B.toNat).length).zip
            ((batchSlices rows B.toNat).map fun b =>
              mkRequest "gpt-3.5-turbo" (mkMessages sys b) 0 300),
         0, .ok ((List.range' 0 (batchSlices rows B.toNat).length).map g)⟩ := by
    unfold get_completion_from_messages_batch
    rw [hplan]
    exact tenacityGo_ok svc _ hatt 5
  have hcalls : (get_completion_from_messages_batch svc rows sys B).calls.map
      Prod.fst = List.range (batchSlices rows B.toNat).length := by
    rw [hrun]
    show ([] ++ _).map Prod.fst = _
    rw [List.nil_append,
      List.map_fst_zip _ _ (by rw [List.length_range', hlen]),
      List.range_eq_range']
  have houtcome : (get_completion_from_messages_batch svc rows sys B).outcome
      = .ok ((List.range (batchSlices rows B.toNat).length).map g) := by
    rw [hrun, List.range_eq_range']
  refine ⟨by rw [length_batchSlices], flatten_batchSlices rows B.toNat hBt,
    hcalls, houtcome, by rw [hrun], fun hnil => ?_⟩
  subst hnil
  constructor
  · have h3 := hcalls
    rw [batchSlices_nil] at h3
    simp only [List.length_nil, List.range_zero] at h3
    exact List.map_eq_nil_iff.mp h3
  · have h4 := houtcome
    rw [batchSlices_nil] at h4
    simpa using h4

/-- Claim C2 witness: the theorem applied to the specification's concrete scenario,
rows a b c d e with batch size 2, under an always-answering service. -/
theorem C2_dispatcher_partitions_rows_witness :
    (batchSlices ["a", "b", "c", "d", "e"] (2 : Int).toNat).flatten
        = ["a", "b", "c", "d", "e"]
      ∧ (get_completion_from_messages_batch
          (fun _ _ => .ok (respOf "r")) ["a", "b", "c", "d", "e"] "sys" 2).calls.map
            Prod.fst
          = List.range
              (batchSlices ["a", "b", "c", "d", "e"] (2 : Int).toNat).length :=
  ⟨(C2_dispatcher_partitions_rows (fun _ _ => .ok (respOf "r"))
      ["a", "b", "c", "d", "e"] "sys" 2 (fun _ => "r") (by norm_num)
      (fun _ => rfl)).2.1,
   (C2_dispatcher_partitions_rows (fun _ _ => .ok (respOf "r"))
      ["a", "b", "c", "d", "e"] "sys" 2 (fun _ => "r") (by norm_num)
      (fun _ => rfl)).2.2.1⟩

/-! Claim C9. -/

/-- Claim C9: the precondition batch size at least 1 is load-bearing: with batch
size 0 the range construction raises before any outbound call is ever issued and the
error propagates to the caller, and with a negative batch size and a non-empty row
sequence the function issues zero calls and returns the empty response list,
silently dropping every row. -/
theorem C9_batch_size_guard (svc : Svc) (rows : List String) (sys : String) :
    ((get_completion_from_messages_batch svc rows sys 0).calls = []
      ∧ (get_completion_from_messages_batch svc rows sys 0).outcome
          = .error ⟨.valueError⟩)
      ∧ ∀ B : Int, B < 0 → rows ≠ [] →
          (get_completion_from_messages_batch svc rows sys B).calls = []
            ∧ (get_completion_from_messages_batch svc rows sys B).outcome
                = .ok [] := by
  constructor
  · have hplan : batchRequests rows sys "gpt-3.5-turbo" 0 300 0
        = .error .valueError := by
      unfold batchRequests
      rw [if_pos rfl]
    have hrun : get_completion_from_messages_batch svc rows sys 0
        = ⟨[] ++ (List.replicate 6 ([] : List (Nat × Request))).flatten, 0 + 5,
           .error ⟨.valueError⟩⟩ := by
      unfold get_completion_from_messages_batch
      rw [hplan]
      exact tenacityGo_const_fail svc (Except.error Err.valueError) []
        Err.valueError (fun _ => rfl) 5 1 [] 0
    rw [hrun]
    exact ⟨by simp [flatten_replicate_nil], rfl⟩
  · intro B hB hrows
    have hplan : batchRequests rows sys "gpt-3.5-turbo" 0 300 B = .ok [] := by
      unfold batchRequests
      rw [if_neg (by omega), if_pos hB]
    have hrun : get_completion_from_messages_batch svc rows sys B
        = ⟨[] ++ [], 0, .ok []⟩ := by
      unfold get_completion_from_messages_batch
      rw [hplan]
      exact tenacityGo_ok svc (Except.ok []) rfl 5
    rw [hrun]
    exact ⟨rfl, rfl⟩

/-- Claim C9 witness: the theorem applied to a concrete service and row list, with
batch sizes 0 and -3. -/
theorem C9_batch_size_guard_witness :
    ((get_completion_from_messages_batch (fun _ _ => .ok (respOf "x")) ["a"] "s"
        0).calls = []
      ∧ (get_completion_from_messages_batch (fun _ _ => .ok (respOf "x")) ["a"] "s"
          0).outcome = .error ⟨.valueError⟩)
      ∧ ((get_completion_from_messages_batch (fun _ _ => .ok (respOf "x")) ["a"] "s"
          (-3)).calls = []
        ∧ (get_completion_from_messages_batch (fun _ _ => .ok (respOf "x")) ["a"]
            "s" (-3)).outcome = .ok []) :=
  ⟨(C9_batch_size_guard (fun _ _ => .ok (respOf "x")) ["a"] "s").1,
   (C9_batch_size_guard (fun _ _ => .ok (respOf "x")) ["a"] "s").2 (-3)
     (by norm_num) (by decide)⟩

/-! Claim C3. -/

/-- Claim C3, counterexample: the claim states that a non-transient failure (such as
an auth failure) propagates immediately on the first attempt with no retry; under a
service that always raises an auth error, the code issues 6 calls for a single
batch, not 1, before the wrapped failure propagates. -/
theorem C3_counterexample_auth_error_retried :
    (get_completion_from_messages_batch (fun _ _ => .error .authError) ["a"] "s"
        1).calls.length = 6
      ∧ ¬ ((get_completion_from_messages_batch (fun _ _ => .error .authError) ["a"]
          "s" 1).calls.length = 1)
      ∧ (get_completion_from_messages_batch (fun _ _ => .error .authError) ["a"] "s"
          1).outcome = .error ⟨.authError⟩ := by
  refine ⟨?_, ?_, ?_⟩ <;> decide

/-- Claim C3 as amended: every failure, transient or not, is retried the same way:
the decorated function is attempted at most 6 times in total (the initial attempt
plus up to 5 retries, each preceded by a backoff delay), and if every attempt fails
the last failure propagates to the caller wrapped in a RetryError; there is no
error-kind filter and no immediate propagation for non-transient errors. -/
theorem C3_all_errors_retried_six_attempts (svc : Svc) (rows : List String)
    (sys : String) (B : Int) (e : Err) (hrows : rows ≠ []) (hB : 1 ≤ B)
    (hsvc : ∀ a j, svc a j = .error e) :
    (get_completion_from_messages_batch svc rows sys B).calls.length = 6
      ∧ (get_completion_from_messages_batch svc rows sys B).delays = 5
      ∧ (get_completion_from_messages_batch svc rows sys B).outcome
          = .error ⟨e⟩ := by
  have hlen : 1 ≤ (batchSlices rows B.toNat).length := by
    rw [length_batchSlices]
    have hr : 1 ≤ rows.length := List.length_pos.mpr hrows
    rw [Nat.one_le_div_iff (by omega)]
    omega
  obtain ⟨r, rest, hr⟩ : ∃ r rest,
      (batchSlices rows B.toNat).map (fun b =>
        mkRequest "gpt-3.5-turbo" (mkMessages sys b) 0 300) = r :: rest := by
    cases hmap : (batchSlices rows B.toNat).map (fun b =>
        mkRequest "gpt-3.5-turbo" (mkMessages sys b) 0 300) with
    | nil =>
      rw [List.map_eq_nil_iff] at hmap
      rw [hmap] at hlen
      simp at hlen
    | cons r rest => exact ⟨r, rest, rfl⟩
  have hatt : ∀ a, attemptOnce svc (.ok (r :: rest)) a = ([(0, r)], .error e) := by
    intro a
    show runCalls svc a 0 (r :: rest) = _
    simp [runCalls, hsvc a 0]
  have hrun : get_completion_from_messages_batch svc rows sys B
      = ⟨[] ++ (List.replicate 6 [(0, r)]).flatten, 0 + 5, .error ⟨e⟩⟩ := by
    unfold get_completion_from_messages_batch
    rw [batchRequests_pos rows sys "gpt-3.5-turbo" 0 300 B hB, hr]
    exact tenacityGo_const_fail svc (.ok (r :: rest)) [(0, r)] e hatt 5 1 [] 0
  rw [hrun]
  refine ⟨?_, rfl, rfl⟩
  rw [List.nil_append, flatten_replicate_singleton]
  exact List.length_replicate 6 _

/-- Claim C3 witness: the amended theorem applied to a service that always raises a
transient rate-limit error, a one-row input and batch size 1. -/
theorem C3_all_errors_retried_six_attempts_witness :
    (get_completion_from_messages_batch (fun _ _ => .error .rateLimit) ["a"] "s"
        1).calls.length = 6
      ∧ (get_completion_from_messages_batch (fun _ _ => .error .rateLimit) ["a"] "s"
          1).delays = 5 :=
  ⟨(C3_all_errors_retried_six_attempts (fun _ _ => .error .rateLimit) ["a"] "s" 1
      .rateLimit (by decide) (by norm_num) (fun _ _ => rfl)).1,
   (C3_all_errors_retried_six_attempts (fun _ _ => .error .rateLimit) ["a"] "s" 1
      .rateLimit (by decide) (by norm_num) (fun _ _ => rfl)).2.1⟩

/-! Claim C4. -/

/-- Claim C4: when some batch's call fails on every attempt (so the retry budget is
exhausted), the error propagates to the caller as the run's outcome, no batch after
the failing one is ever requested, and no partial response list is returned (the
outcome carries the error, not the responses collected for earlier batches). -/
theorem C4_fatal_failure_propagates (svc : Svc) (rows : List String) (sys : String)
    (B : Int) (e : Err) (jf : Nat) (g : Nat → Nat → String) (hB : 1 ≤ B)
    (hjf : jf < (batchSlices rows B.toNat).length)
    (hfail : ∀ a, svc a jf = .error e)
    (hok : ∀ a k, k < jf → svc a k = .ok (respOf (g a k))) :
    (get_completion_from_messages_batch svc rows sys B).outcome = .error ⟨e⟩
      ∧ ∀ j ∈ (get_completion_from_messages_batch svc rows sys B).calls.map
          Prod.fst, j ≤ jf := by
  obtain ⟨reqs, hreqs, hlenr⟩ : ∃ reqs,
      batchRequests rows sys "gpt-3.5-turbo" 0 300 B = .ok reqs
        ∧ reqs.length = (batchSlices rows B.toNat).length :=
    ⟨_, batchRequests_pos rows sys "gpt-3.5-turbo" 0 300 B hB,
      List.length_map _ _⟩
  have hjfr : jf < reqs.length := by rw [hlenr]; exact hjf
  have hatt : ∀ a, attemptOnce svc (.ok reqs) a
      = ((List.range' 0 (jf + 1)).zip (reqs.take (jf + 1)), .error e) := by
    intro a
    show runCalls svc a 0 reqs = _
    exact runCalls_fail svc a (g a) e jf reqs 0 hjfr
      (fun k hk => by simpa using hok a k hk)
      (by simpa using hfail a)
  have hrun : get_completion_from_messages_batch svc rows sys B
      = ⟨[] ++ (List.replicate 6 ((List.range' 0 (jf + 1)).zip
          (reqs.take (jf + 1)))).flatten, 0 + 5, .error ⟨e⟩⟩ := by
    unfold get_completion_from_messages_batch
    rw [hreqs]
    exact tenacityGo_const_fail svc (.ok reqs) _ e hatt 5 1 [] 0
  constructor
  · rw [hrun]
  · intro j hj
    rw [hrun] at hj
    simp only [List.nil_append] at hj
    obtain ⟨p, hp, hpj⟩ := List.mem_map.mp hj
    obtain ⟨l, hl, hpl⟩ := List.mem_flatten.mp hp
    have hlcs := List.eq_of_mem_replicate hl
    subst hlcs
    have hmem := (List.of_mem_zip hpl).1
    rw [List.mem_range'_1] at hmem
    omega

/-- Claim C4 witness: the theorem applied to a service whose call for the first
batch always fails with a rate-limit error. -/
theorem C4_fatal_failure_propagates_witness :
    (get_completion_from_messages_batch
        (fun _ j => if j = 0 then .error .rateLimit else .ok (respOf "x"))
        ["a", "b"] "s" 1).outcome = .error ⟨.rateLimit⟩ :=
  (C4_fatal_failure_propagates
    (fun _ j => if j = 0 then .error .rateLimit else .ok (respOf "x"))
    ["a", "b"] "s" 1 .rateLimit 0 (fun _ _ => "x") (by norm_num) (by decide)
    (fun _ => rfl) (fun _ k hk => absurd hk (Nat.not_lt_zero k))).1

/-! Claim C1. -/

/-- Claim C1, counterexample: the claim states that when one batch's call fails
transiently twice and then succeeds, every other batch's call is issued exactly
once; with two batches where the second fails on attempts 1 and 2, the first batch's
call is issued 3 times, because the retry decorator re-runs the whole batch loop. -/
theorem C1_counterexample_earlier_batch_reissued :
    ((get_completion_from_messages_batch
        (fun a j => if a ≤ 2 ∧ j = 1 then .error .rateLimit else .ok (respOf "t"))
        ["a", "b"] "s" 1).calls.map Prod.fst).count 0 = 3
      ∧ ¬ (((get_completion_from_messages_batch
          (fun a j => if a ≤ 2 ∧ j = 1 then .error .rateLimit else .ok (respOf "t"))
          ["a", "b"] "s" 1).calls.map Prod.fst).count 0 = 1)
      ∧ (get_completion_from_messages_batch
          (fun a j => if a ≤ 2 ∧ j = 1 then .error .rateLimit else .ok (respOf "t"))
          ["a", "b"] "s" 1).delays = 2
      ∧ (get_completion_from_messages_batch
          (fun a j => if a ≤ 2 ∧ j = 1 then .error .rateLimit else .ok (respOf "t"))
          ["a", "b"] "s" 1).outcome = .ok ["t", "t"] := by
  refine ⟨?_, ?_, ?_, ?_⟩ <;> decide

/-- Claim C1 as amended: the retry decorator wraps the whole batch function, not an
inner per-call client, so when batch jf's call fails transiently on attempts 1 and 2
and every other call succeeds, the entire batch loop is re-run on each attempt: the
call trace is the first jf+1 batches twice (the two failed attempts) followed by all
batches once (the successful third attempt); each batch up to and including jf is
issued 3 times and each later batch exactly once; two retry delays precede the
successful attempt, and the caller receives exactly one response per batch, all
produced by attempt 3. -/
theorem C1_retry_wraps_whole_dispatcher (svc : Svc) (rows : List String)
    (sys : String) (B : Int) (e : Err) (jf : Nat) (g : Nat → Nat → String)
    (hB : 1 ≤ B) (hjf : jf < (batchSlices rows B.toNat).length)
    (hfail1 : svc 1 jf = .error e) (hfail2 : svc 2 jf = .error e)
    (hok1 : ∀ j, j < jf → svc 1 j = .ok (respOf (g 1 j)))
    (hok2 : ∀ j, j < jf → svc 2 j = .ok (respOf (g 2 j)))
    (hok3 : ∀ j, svc 3 j = .ok (respOf (g 3 j))) :
    (get_completion_from_messages_batch svc rows sys B).calls.map Prod.fst
        = (List.range' 0 (jf + 1) ++ List.range' 0 (jf + 1))
            ++ List.range' 0 (batchSlices rows B.toNat).length
      ∧ (get_completion_from_messages_batch svc rows sys B).delays = 2
      ∧ (get_completion_from_messages_batch svc rows sys B).outcome
          = .ok ((List.range' 0 (batchSlices rows B.toNat).length).map (g 3))
      ∧ ((get_completion_from_messages_batch svc rows sys B).calls.map
          Prod.fst).count jf = 3
      ∧ ∀ j, jf < j →
          ((get_completion_from_messages_batch svc rows sys B).calls.map
            Prod.fst).count j
            = if j < (batchSlices rows B.toNat).length then 1 else 0 := by
  obtain ⟨reqs, hreqs, hlenr⟩ : ∃ reqs,
      batchRequests rows sys "gpt-3.5-turbo" 0 300 B = .ok reqs
        ∧ reqs.length = (batchSlices rows B.toNat).length :=
    ⟨_, batchRequests_pos rows sys "gpt-3.5-turbo" 0 300 B hB,
      List.length_map _ _⟩
  have hjfr : jf < reqs.length := by rw [hlenr]; exact hjf
  have hatt1 : attemptOnce svc (.ok reqs) 1
      = ((List.range' 0 (jf + 1)).zip (reqs.take (jf + 1)), .error e) := by
    show runCalls svc 1 0 reqs = _
    exact runCalls_fail svc 1 (g 1) e jf reqs 0 hjfr
      (fun k hk => by simpa using hok1 k hk) (by simpa using hfail1)
  have hatt2 : attemptOnce svc (.ok reqs) 2
      = ((List.range' 0 (jf + 1)).zip (reqs.take (jf + 1)), .error e) := by
    show runCalls svc 2 0 reqs = _
    exact runCalls_fail svc 2 (g 2) e jf reqs 0 hjfr
      (fun k hk => by simpa using hok2 k hk) (by simpa using hfail2)
  have hatt3 : attemptOnce svc (.ok reqs) 3
      = ((List.range' 0 reqs.length).zip reqs,
         .ok ((List.range' 0 reqs.length).map (g 3))) := by
    show runCalls svc 3 0 reqs = _
    exact runCalls_ok svc 3 (g 3) reqs 0 (fun k _ => by simpa using hok3 k)
  have hrun : get_completion_from_messages_batch svc rows sys B
      = ⟨(([] ++ (List.range' 0 (jf + 1)).zip (reqs.take (jf + 1)))
            ++ (List.range' 0 (jf + 1)).zip (reqs.take (jf + 1)))
          ++ (List.range' 0 reqs.length).zip reqs,
         2, .ok ((List.range' 0 reqs.length).map (g 3))⟩ := by
    unfold get_completion_from_messages_batch
    rw [hreqs, tenacityGo_fail_step svc (.ok reqs) hatt1 4,
      tenacityGo_fail_step svc (.ok reqs) hatt2 3]
    exact tenacityGo_ok svc (.ok reqs) hatt3 3
  have htake : (List.range' 0 (jf + 1)).length ≤ (reqs.take (jf + 1)).length := by
    rw [List.length_range', List.length_take]
    omega
  have hmapfst : (get_completion_from_messages_batch svc rows sys B).calls.map
      Prod.fst
      = (List.range' 0 (jf + 1) ++ List.range' 0 (jf + 1))
          ++ List.range' 0 (batchSlices rows B.toNat).length := by
    rw [hrun]
    show ((([] ++ _) ++ _) ++ _).map Prod.fst = _
    have hlen3 : (List.range' 0 reqs.length).length ≤ reqs.length := by
      rw [List.length_range']
    rw [List.nil_append, List.map_append, List.map_append,
      List.map_fst_zip _ _ htake, List.map_fst_zip _ _ hlen3, hlenr]
  have hcount : ∀ j,
      ((get_completion_from_messages_batch svc rows sys B).calls.map
        Prod.fst).count j
        = ((if j < jf + 1 then 1 else 0) + (if j < jf + 1 then 1 else 0))
            + (if j < (batchSlices rows B.toNat).length then 1 else 0) := by
    intro j
    rw [hmapfst, List.count_append, List.count_append,
      ← List.range_eq_range', ← List.range_eq_range',
      count_range, count_range]
  refine ⟨hmapfst, by rw [hrun], by rw [hrun, hlenr], ?_, ?_⟩
  · rw [hcount jf]
    have h1 : jf < jf + 1 := Nat.lt_succ_self jf
    rw [if_pos h1, if_pos hjf]
  · intro j hjgt
    rw [hcount j]
    have h1 : ¬ j < jf + 1 := by omega
    rw [if_neg h1]
    simp

/-- Claim C1 witness: the amended theorem applied to the concrete two-batch scenario
in which the second batch fails on the first two attempts. -/
theorem C1_retry_wraps_whole_dispatcher_witness :
    ((get_completion_from_messages_batch
        (fun a j => if a ≤ 2 ∧ j = 1 then .error .rateLimit else .ok (respOf "t"))
        ["a", "b"] "s" 1).calls.map Prod.fst).count 1 = 3
      ∧ (get_completion_from_messages_batch
          (fun a j => if a ≤ 2 ∧ j = 1 then .error .rateLimit else .ok (respOf "t"))
          ["a", "b"] "s" 1).delays = 2 :=
  ⟨(C1_retry_wraps_whole_dispatcher
      (fun a j => if a ≤ 2 ∧ j = 1 then .error .rateLimit else .ok (respOf "t"))
      ["a", "b"] "s" 1 .rateLimit 1 (fun _ _ => "t") (by norm_num) (by decide)
      (by decide) (by decide)
      (fun j hj => by
        have hj0 : j = 0 := by omega
        subst hj0
        decide)
      (fun j hj => by
        have hj0 : j = 0 := by omega
        subst hj0
        decide)
      (fun j => by
        have h : ¬ (3 ≤ 2 ∧ j = 1) := by omega
        simp [h])).2.2.2.1,
   (C1_retry_wraps_whole_dispatcher
      (fun a j => if a ≤ 2 ∧ j = 1 then .error .rateLimit else .ok (respOf "t"))
      ["a", "b"] "s" 1 .rateLimit 1 (fun _ _ => "t") (by norm_num) (by decide)
      (by decide) (by decide)
      (fun j hj => by
        have hj0 : j = 0 := by omega
        subst hj0
        decide)
      (fun j hj => by
        have hj0 : j = 0 := by omega
        subst hj0
        decide)
      (fun j => by
        have h : ¬ (3 ≤ 2 ∧ j = 1) := by omega
        simp [h])).2.1⟩

/-! Claim C7. -/

/-- Claim C7: under default parameters the single-message helper issues its request
with temperature 0 and a 150-token output cap and returns the first completion
choice's message content, and every outbound request the batch helper issues carries
temperature 0 and a 300-token output cap. -/
theorem C7_request_parameters_and_content :
    (∀ (svc : Request → Response) (messages : List Message),
        get_completion_from_messages svc messages
          = ((svc (mkRequest "gpt-3.5-turbo" messages 0 150)).choices.head?).map
              fun ch => ch.message.content)
      ∧ ∀ (svc : Svc) (rows : List String) (sys : String) (B : Int),
          ((get_completion_from_messages_batch svc rows sys B).calls.all
            fun p => p.2.temperature == 0 && p.2.maxTokens == 300) = true := by
  constructor
  · intro svc messages
    rfl
  · intro svc rows sys B
    rw [List.all_eq_true]
    intro p hp
    rcases mem_tenacityGo_calls svc
        (batchRequests rows sys "gpt-3.5-turbo" 0 300 B) 5 1 [] 0 p hp with
      h | ⟨reqs, hplan, hmem⟩
    · simp at h
    · unfold batchRequests at hplan
      by_cases hB0 : B = 0
      · rw [if_pos hB0] at hplan
        exact absurd hplan (by simp)
      · by_cases hBneg : B < 0
        · rw [if_neg hB0, if_pos hBneg] at hplan
          have hnil : ([] : List Request) = reqs := by
            injection hplan
          rw [← hnil] at hmem
          simp at hmem
        · rw [if_neg hB0, if_neg hBneg] at hplan
          have hmap : (batchSlices rows B.toNat).map (fun b =>
              mkRequest "gpt-3.5-turbo" (mkMessages sys b) 0 300) = reqs := by
            injection hplan
          rw [← hmap] at hmem
          obtain ⟨b, _, hreq⟩ := List.mem_map.mp hmem
          rw [← hreq]
          rfl

end OpenAITutorial
